import Mathlib

/-!
# Verification of the pdf2md layout-reconstruction pipeline

This file gives a shallow embedding, in Lean 4, of the core functions of the
pdf2md repository and settles a list of claims about them.

The repository contains several variants of the same `PDFToMarkdown` class:

* `src/index.ts` (compiled form in `src/dist/index.js`) — the TypeScript
  variant with geometric line grouping (`groupTextItemsByLine`), annotation
  rectangle matching (`createLinkMap`, `isPointInRect`), link merging
  (`addToLinks`, `combineText`) and Markdown formatting
  (`normalizeSpacing`, `detectAndFormatSections`, `isSectionHeader`,
  `detectAndFormatLists`, `formatMarkdown`).  It is embedded below in
  namespace `PdfToMd.TS`.
* `src/index.js` (first module of the file) — a JavaScript variant whose
  `insertHyperlinks` performs a guarded regex replacement
  `(?<!\[|\]\()text(?!\]|\))` and whose `processPage` contains the
  newline-reflow replacement chain.  Embedded in namespace `PdfToMd.JS`.

Coordinates are embedded as rationals (`ℚ`): every number the source
manipulates (positions, widths, tolerances) is produced by exact decimal
literals and ring operations, which JavaScript doubles represent exactly at
the magnitudes exercised here; `Math.round` is embedded as
`fun q => ⌊q + 1/2⌋`, its behaviour on all non-negative doubles.

Strings are embedded via their character lists.  JavaScript's `\s` and
`trim` are embedded for the ASCII whitespace characters (the inputs in this
development are ASCII; the Unicode spaces JavaScript additionally accepts do
not occur).  `String.prototype.toUpperCase` agrees with `Char.toUpper` on
ASCII, which is how it is embedded.
-/

namespace PdfToMd

/-- ASCII model of the JavaScript `\s` character class (and of the character
set removed by `String.prototype.trim`). -/
def isJsSpace (c : Char) : Bool :=
  c == ' ' || c == '\t' || c == '\n' || c == '\r' || c == '\x0b' || c == '\x0c'

/-- Model of the JavaScript `\w` character class: `[A-Za-z0-9_]`. -/
def isWordChar (c : Char) : Bool :=
  ('a' ≤ c && c ≤ 'z') || ('A' ≤ c && c ≤ 'Z') || ('0' ≤ c && c ≤ '9') || c == '_'

/-- Model of the JavaScript `\d` character class: `[0-9]`. -/
def isDigitChar (c : Char) : Bool :=
  '0' ≤ c && c ≤ '9'

/-- Model of JavaScript `String.prototype.includes` on character lists. -/
def listIncludes (hay pat : List Char) : Bool :=
  match hay with
  | [] => pat.isEmpty
  | _ :: t => pat.isPrefixOf hay || listIncludes t pat

/-- Model of JavaScript `String.prototype.trim` (ASCII whitespace). -/
def trimL (l : List Char) : List Char :=
  ((l.dropWhile isJsSpace).reverse.dropWhile isJsSpace).reverse

/-- Model of JavaScript `String.prototype.split('\n')`: the pieces between
the newlines, `[""]` for the empty string. -/
def splitLines : List Char → List (List Char)
  | [] => [[]]
  | c :: rest =>
    if c == '\n' then [] :: splitLines rest
    else
      match splitLines rest with
      | [] => [[c]]
      | piece :: pieces => (c :: piece) :: pieces

/-- Model of JavaScript `Array.prototype.join('\n')`. -/
def joinLines : List (List Char) → List Char
  | [] => []
  | [x] => x
  | x :: xs => x ++ '\n' :: joinLines xs

/-- Rendering of one maximal whitespace run under the replacement
`replace(/\s{2,}/g, ' ')`: a run of length at least two becomes a single
space, a single whitespace character is left as it is.  The run is passed
in reverse accumulation order, which does not matter for its length, and a
one-element run is its own reverse. -/
def wsRunOut (run : List Char) : List Char :=
  match run with
  | [] => []
  | [c] => [c]
  | _ => [' ']

/-- Scanner for `replace(/\s{2,}/g, ' ')`: accumulates the current
whitespace run and renders it when a non-whitespace character (or the end of
the string) is reached. -/
def collapseWsAux (run : List Char) : List Char → List Char
  | [] => wsRunOut run
  | c :: rest =>
    if isJsSpace c then collapseWsAux (c :: run) rest
    else wsRunOut run ++ c :: collapseWsAux [] rest

/-- Model of `text.replace(/\s{2,}/g, ' ')`. -/
def collapseWs (l : List Char) : List Char :=
  collapseWsAux [] l

/-- Rendering of one maximal newline run under `replace(/\n{3,}/g, '\n\n')`:
three or more newlines collapse to exactly two, shorter runs stay. -/
def nlRunOut (n : Nat) : List Char :=
  if 3 ≤ n then ['\n', '\n'] else List.replicate n '\n'

/-- Scanner for `replace(/\n{3,}/g, '\n\n')`: counts the current newline run
and renders it at the run's end. -/
def collapseNlAux (n : Nat) : List Char → List Char
  | [] => nlRunOut n
  | c :: rest =>
    if c == '\n' then collapseNlAux (n + 1) rest
    else nlRunOut n ++ c :: collapseNlAux 0 rest

/-- Model of `text.replace(/\n{3,}/g, '\n\n')`. -/
def collapseNl (l : List Char) : List Char :=
  collapseNlAux 0 l

/-- Model of JavaScript `Math.round` (round half toward positive infinity). -/
def jsRound (q : ℚ) : ℤ :=
  ⌊q + 1 / 2⌋

/-- Model of `Math.round(n * 100) / 100`, the two-decimal rounding used for
line keys, item coordinates and link-map keys. -/
def jsRound2 (q : ℚ) : ℚ :=
  (jsRound (q * 100) : ℚ) / 100

/-- Insertion-ordered association-list update, the embedding of
`Map.prototype.set`: an existing key keeps its place in iteration order and
has its value overwritten; a new key is appended. -/
def mapSetKV {κ ν : Type} [DecidableEq κ] : List (κ × ν) → κ → ν → List (κ × ν)
  | [], k, v => [(k, v)]
  | (k', v') :: rest, k, v =>
    if k' = k then (k', v) :: rest else (k', v') :: mapSetKV rest k v

/-- Association-list lookup, the embedding of `Map.prototype.get`. -/
def lookupKV {κ ν : Type} [DecidableEq κ] : List (κ × ν) → κ → Option ν
  | [], _ => none
  | (k', v) :: rest, k => if k' = k then some v else lookupKV rest k

/-- Model of JavaScript `String.prototype.split(/\s+/)`: the pieces between
maximal whitespace runs, with an empty leading (trailing) piece when the
string starts (ends) with whitespace, and `[""]` for the empty string. -/
def splitWsAux (cur : List Char) (prevSpace : Bool) : List Char → List (List Char)
  | [] => [cur.reverse]
  | c :: rest =>
    if isJsSpace c then
      if prevSpace then splitWsAux cur true rest
      else cur.reverse :: splitWsAux [] true rest
    else splitWsAux (c :: cur) false rest

/-- `split(/\s+/)` on a character list. -/
def splitWs (l : List Char) : List (List Char) :=
  splitWsAux [] false l

end PdfToMd

namespace PdfToMd.TS

/-! ## Embedding of `src/index.ts` (class `PDFToMarkdown`), as compiled in
`src/dist/index.js`. -/

/-- `LinkPosition` of src/index.ts. -/
structure LinkPosition where
  x : ℚ
  y : ℚ
  page : Nat
deriving DecidableEq, Repr

/-- `LinkInfo` of src/index.ts. -/
structure LinkInfo where
  text : String
  url : String
  position : LinkPosition
deriving DecidableEq, Repr

/-- A page-coordinate rectangle `[x1, y1, x2, y2]`.  The source passes it as
`number[]` and destructures exactly four entries; it is embedded as a
four-field structure. -/
structure Rect4 where
  x1 : ℚ
  y1 : ℚ
  x2 : ℚ
  y2 : ℚ
deriving DecidableEq, Repr

/-- `TextItem` of src/index.ts.  Of the `transform` array the source reads
only entries 4 and 5 (the x and y translation), embedded here as the fields
`x` and `y`; `width` is optional exactly as in the source. -/
structure TextItem where
  str : String
  x : ℚ
  y : ℚ
  width : Option ℚ
deriving DecidableEq, Repr

/-- `PDFAnnotation` of src/index.ts: `url` is optional, and `undefined` as
well as the empty string are falsy for the `ann.url` truthiness test. -/
structure PDFAnnotation where
  subtype : String
  url : Option String
  rect : Rect4
deriving DecidableEq, Repr

/-- `ProcessedTextItem` of src/index.ts. -/
structure ProcessedTextItem where
  text : String
  x : ℚ
  y : ℚ
  width : ℚ
deriving DecidableEq, Repr

/-- `LinkAnnotation` of src/index.ts (the values of the link map). -/
structure LinkAnnotation where
  url : String
  rect : Rect4
deriving DecidableEq, Repr

/-- `estimateCharWidth`: `text.length * 8`. -/
def estimateCharWidth (text : String) : ℚ :=
  (text.length : ℚ) * 8

/-- `isPointInRect` with its margin of 2 units. -/
def isPointInRect (x y : ℚ) (rect : Rect4) : Bool :=
  decide (rect.x1 - 2 ≤ x) && decide (x ≤ rect.x2 + 2) &&
  decide (rect.y1 - 2 ≤ y) && decide (y ≤ rect.y2 + 2)

/-- One step of the `lines` map construction in `groupTextItemsByLine`: push
the processed item onto the group of its key, creating the group at the end
of the insertion order when the key is new (`Map` semantics). -/
def groupInsert : List (ℚ × List ProcessedTextItem) → ℚ → ProcessedTextItem →
    List (ℚ × List ProcessedTextItem)
  | [], k, v => [(k, [v])]
  | (k', vs) :: rest, k, v =>
    if k' = k then (k', vs ++ [v]) :: rest else (k', vs) :: groupInsert rest k v

/-- The grouping pass of `groupTextItemsByLine`: items keyed by their
`Math.round(y * 100) / 100` value, in first-occurrence order. -/
def lineGroups (items : List TextItem) : List (ℚ × List ProcessedTextItem) :=
  items.foldl
    (fun m item =>
      let ry := jsRound2 item.y
      groupInsert m ry
        { text := item.str
          x := jsRound2 item.x
          y := ry
          width := item.width.getD (estimateCharWidth item.str) })
    []

/-- The comparator of `.sort(([y1], [y2]) => y2 - y1)`: descending by key. -/
def keyGE (p q : ℚ × List ProcessedTextItem) : Prop :=
  q.1 ≤ p.1

instance : DecidableRel keyGE :=
  fun p q => inferInstanceAs (Decidable (q.1 ≤ p.1))

instance : IsTotal (ℚ × List ProcessedTextItem) keyGE :=
  ⟨fun a b => le_total b.1 a.1⟩

instance : IsTrans (ℚ × List ProcessedTextItem) keyGE :=
  ⟨fun _ _ _ h1 h2 => le_trans h2 h1⟩

/-- The `.sort(([y1], [y2]) => y2 - y1)` pass: entries sorted by descending
key.  The keys of `lineGroups` are pairwise distinct, so the stable
`insertionSort` produces the same list as the JavaScript sort. -/
def sortedLineGroups (items : List TextItem) : List (ℚ × List ProcessedTextItem) :=
  List.insertionSort keyGE (lineGroups items)

/-- `groupTextItemsByLine`: group by rounded y, order the groups by
descending y, and sort each group's items by ascending x (a stable sort, as
`Array.prototype.sort` is). -/
def groupTextItemsByLine (items : List TextItem) : List (List ProcessedTextItem) :=
  (sortedLineGroups items).map
    (fun e => List.insertionSort (fun a b : ProcessedTextItem => a.x ≤ b.x) e.2)

/-- The rounded rectangle used as the link-map key.  The source joins the
four rounded numbers into a comma-separated string; since JavaScript's
number-to-string conversion is injective, string-key equality coincides with
equality of the rounded 4-tuples, which is how the key is embedded. -/
def roundRect (r : Rect4) : Rect4 :=
  ⟨jsRound2 r.x1, jsRound2 r.y1, jsRound2 r.x2, jsRound2 r.y2⟩

/-- `createLinkMap`: keep annotations with subtype `"Link"` and a truthy
`url`, keyed by the rounded rectangle, `Map` insertion semantics. -/
def createLinkMap (annotations : List PDFAnnotation) :
    List (Rect4 × LinkAnnotation) :=
  annotations.foldl
    (fun m ann =>
      match ann.url with
      | some u =>
        if ann.subtype = "Link" ∧ u ≠ "" then
          mapSetKV m (roundRect ann.rect) ⟨u, ann.rect⟩
        else m
      | none => m)
    []

/-- `combineText`: superstring absorption, last-word/first-word overlap
merge, otherwise concatenation with a single space. -/
def combineText (existing newText : String) : String :=
  if listIncludes existing.data newText.data then existing
  else if listIncludes newText.data existing.data then newText
  else
    let words := (splitWs existing.data).map String.mk
    let newWords := (splitWs newText.data).map String.mk
    if words.getLast? = newWords.head? then
      String.intercalate " " words.dropLast ++ " " ++ newText
    else
      existing ++ " " ++ newText

/-- `addToLinks`: find the first collected link with the same url, a
y-distance below 2 and the same page; if one exists and its x-distance is
below twice the estimated character width of its text, merge the new text
into it (and move its x to the minimum), otherwise leave the list unchanged;
if none exists, push the new link at the end. -/
def addToLinks : List LinkInfo → LinkInfo → List LinkInfo
  | [], linkInfo => [linkInfo]
  | e :: rest, linkInfo =>
    if e.url = linkInfo.url ∧ |e.position.y - linkInfo.position.y| < 2 ∧
        e.position.page = linkInfo.position.page then
      if |e.position.x - linkInfo.position.x| < estimateCharWidth e.text * 2 then
        { e with
            text := combineText e.text linkInfo.text
            position := { e.position with x := min e.position.x linkInfo.position.x } } :: rest
      else e :: rest
    else e :: addToLinks rest linkInfo

/-- The `currentLinks` set collected in `processLine`: for every item of the
line (outer loop) and every link-map entry (inner loop), a fresh `LinkInfo`
when the item's position lies in the entry's rectangle.  Every added object
is a fresh literal, so the JavaScript `Set` never deduplicates and iterates
in exactly this insertion order. -/
def collectLineLinks (lineItems : List ProcessedTextItem)
    (linkMap : List (Rect4 × LinkAnnotation)) (pageNumber : Nat) : List LinkInfo :=
  lineItems.foldr
    (fun item acc =>
      (linkMap.filterMap
        (fun e =>
          if isPointInRect item.x item.y e.2.rect then
            some ⟨item.text, e.2.url, ⟨item.x, item.y, pageNumber⟩⟩
          else none)) ++ acc)
    []

/-- The text-building loop of `processLine`: a space is inserted (and the
pending word parts flushed) whenever the gap between the current item's x
and the previous item's x plus the estimated width of the previous item's
text exceeds the spacing threshold of 3 units; word parts are joined without
separator otherwise. -/
def buildLineAux (prev : Option ProcessedTextItem) (text : List Char)
    (parts : List (List Char)) : List ProcessedTextItem → List Char
  | [] => text ++ parts.flatten
  | i :: rest =>
    let flush : Bool :=
      match prev with
      | none => false
      | some p => decide (3 < i.x - (p.x + estimateCharWidth p.text))
    let text' := if flush then text ++ parts.flatten ++ [' '] else text
    let parts' := (if flush then [] else parts) ++ [i.text.data]
    buildLineAux (some i) text' parts' rest

/-- `processLine`: returns the reconstructed line text (trimmed) and the
`links` accumulator extended by `addToLinks` for every collected link. -/
def processLine (lineItems : List ProcessedTextItem)
    (linkMap : List (Rect4 × LinkAnnotation)) (links : List LinkInfo)
    (pageNumber : Nat) : String × List LinkInfo :=
  (⟨trimL (buildLineAux none [] [] lineItems)⟩,
    (collectLineLinks lineItems linkMap pageNumber).foldl addToLinks links)

/-- `normalizeSpacing`: `text.replace(/\s{2,}/g, ' ').trim()`. -/
def normalizeSpacing (text : String) : String :=
  ⟨trimL (collapseWs text.data)⟩

/-- `processPageContent`: group the items into lines, process each line
(appending a newline), and return the normalized trimmed page text with the
collected links. -/
def processPageContent (items : List TextItem) (annotations : List PDFAnnotation)
    (pageNumber : Nat) : String × List LinkInfo :=
  let lines := groupTextItemsByLine items
  let linkMap := createLinkMap annotations
  let r := lines.foldl
    (fun (acc : List Char × List LinkInfo) line =>
      let p := processLine line linkMap acc.2 pageNumber
      (acc.1 ++ p.1.data ++ ['\n'], p.2))
    ([], [])
  (normalizeSpacing ⟨trimL r.1⟩, r.2)

end PdfToMd.TS

namespace PdfToMd.TS

/-- `isSectionHeader`: no `'@'` and no `"http"`, length at most 70, and
either the text equals its own upper-casing or it has length at least 2 and
contains no character outside `[\w\s,-]` (the regex
`/[^\w\s,-]/` must not match). -/
def isSectionHeader (text : List Char) : Bool :=
  if listIncludes text ['@'] || listIncludes text ['h', 't', 't', 'p'] then false
  else if 70 < text.length then false
  else
    (text.map Char.toUpper == text) ||
    (decide (2 ≤ text.length) &&
      text.all (fun c => isWordChar c || isJsSpace c || c == ',' || c == '-'))

/-- One line of the `detectAndFormatSections` loop, acting on the
accumulator (formatted lines so far, `lastLineWasHeader`, line index). -/
def sectionsStep (acc : List (List Char) × Bool × Nat) (line : List Char) :
    List (List Char) × Bool × Nat :=
  let t := trimL line
  if isSectionHeader t then
    let pre : List (List Char) :=
      if acc.2.2 ≠ 0 ∧ acc.2.1 = false then [[]] else []
    (acc.1 ++ pre ++ ['\n' :: '#' :: '#' :: ' ' :: (t ++ ['\n'])], true, acc.2.2 + 1)
  else
    (acc.1 ++ [line], false, acc.2.2 + 1)

/-- `detectAndFormatSections`: split into lines, rewrite header lines as
`"\n## " + trimmed + "\n"` (with a preceding blank entry when the previous
line was not a header and the line is not the first), join with `'\n'`. -/
def detectAndFormatSections (text : String) : String :=
  ⟨joinLines ((splitLines text.data).foldl sectionsStep ([], false, 0)).1⟩

/-- The list-item test of `detectAndFormatLists`:
`trimmed.startsWith('•') || trimmed.startsWith('-') || /^\d+\./.test(trimmed)`. -/
def isListItemTS (t : List Char) : Bool :=
  t.head? == some '•' || t.head? == some '-' ||
  (let ds := t.takeWhile isDigitChar
   !ds.isEmpty && (t.drop ds.length).head? == some '.')

/-- The replacement `trimmed.replace(/^[•-\d.]\s*/, '- ')`.  In a
non-unicode JavaScript regex the class `[•-\d.]` is the set
`{'•', '-', digits, '.'}` (the hyphen is literal because a class escape
cannot be a range bound), so the match consumes exactly one such leading
character together with the following whitespace run. -/
def listReplaceTS (t : List Char) : List Char :=
  match t with
  | [] => []
  | c :: rest =>
    if c == '•' || c == '-' || isDigitChar c || c == '.' then
      '-' :: ' ' :: rest.dropWhile isJsSpace
    else t

/-- One line of the `detectAndFormatLists` loop of src/index.ts.  The
accumulator carries the formatted lines, the `inList` flag, the line index
and the previous original line (the loop reads `lines[index - 1]`). -/
def listsStepTS (acc : List (List Char) × Bool × Nat × List Char)
    (line : List Char) : List (List Char) × Bool × Nat × List Char :=
  let t := trimL line
  if isListItemTS t then
    (acc.1 ++ [listReplaceTS t], true, acc.2.2.1 + 1, line)
  else if acc.2.1 ∧ (t = [] ∨ (0 < acc.2.2.1 ∧ trimL acc.2.2.2 ≠ [])) then
    (acc.1 ++ [[]], false, acc.2.2.1 + 1, line)
  else
    (acc.1 ++ [line], acc.2.1, acc.2.2.1 + 1, line)

/-- `detectAndFormatLists` of src/index.ts: bullet or numbered lines have
their leading class character rewritten to `"- "`; inside a list a blank
line (or a line after a non-blank line) emits an empty line and leaves list
state; other lines pass through. -/
def detectAndFormatLists (text : String) : String :=
  ⟨joinLines ((splitLines text.data).foldl listsStepTS ([], false, 0, [])).1⟩

/-- `replace(/^(.*?)\n/, '$1\n\n')`: `.` does not match `'\n'` and the
quantifier is lazy, so the first `'\n'` of the text is doubled (no match,
and no change, when the text has no newline). -/
def fmFirstAux : List Char → List Char
  | [] => []
  | '\n' :: rest => '\n' :: '\n' :: rest
  | c :: rest => c :: fmFirstAux rest

/-- `replace(/\n##\s/g, '\n\n## ')`: each occurrence of a newline, two
hashes and one whitespace character is rewritten, scanning left to right
without overlap.  When the four-character window fails only on its last
character (which then is not whitespace, in particular not a newline), no
match can start inside the window, so the scanner may emit it whole and
continue behind it. -/
def fmHeaderSpace : List Char → List Char
  | [] => []
  | '\n' :: '#' :: '#' :: c :: rest =>
    if isJsSpace c then
      '\n' :: '\n' :: '#' :: '#' :: ' ' :: fmHeaderSpace rest
    else '\n' :: '#' :: '#' :: c :: fmHeaderSpace rest
  | c :: rest => c :: fmHeaderSpace rest

/-- `replace(/^-\s*/gm, '- ')`, scanning with a line-start flag: at a line
start a `'-'` and the whole following whitespace run (which may include
newlines) are replaced by `"- "`; afterwards the scanner is at a line start
exactly when the last consumed character was a newline.  The fuel argument
(instantiated with the list length, an upper bound on the number of steps)
makes the recursion structural. -/
def fmDashAux : Nat → Bool → List Char → List Char
  | 0, _, l => l
  | _ + 1, _, [] => []
  | fuel + 1, atStart, c :: rest =>
    if atStart && c == '-' then
      let run := rest.takeWhile isJsSpace
      '-' :: ' ' :: fmDashAux fuel (run.getLast? == some '\n') (rest.drop run.length)
    else c :: fmDashAux fuel (c == '\n') rest

/-- `replace(/^-\s*/gm, '- ')`. -/
def fmDash (l : List Char) : List Char :=
  fmDashAux l.length true l

/-- `formatMarkdown`: double the first newline, widen `\n## ` headers,
normalize dash bullets, collapse newline runs of three or more to two, and
trim. -/
def formatMarkdown (text : String) : String :=
  ⟨trimL (collapseNl (fmDash (fmHeaderSpace (fmFirstAux text.data))))⟩

/-- `processPage`: normalize spacing, then sections, then lists. -/
def processPage (pageText : String) : String :=
  detectAndFormatLists (detectAndFormatSections (normalizeSpacing pageText))

/-- `insertHyperlinks` of src/index.ts: the entire body is commented out in
the source; the compiled `src/dist/index.js` ends the function with
`return text;`, so the function returns its input unchanged and the `links`
argument is never consulted. -/
def insertHyperlinks (text : String) (_links : List LinkInfo) : String :=
  text

/-- The instance state of the `PDFToMarkdown` class: the `pageTexts` and
`hyperlinks` maps, created once in the constructor and never cleared. -/
structure RenderState where
  pageTexts : List (Nat × String)
  hyperlinks : List (Nat × List LinkInfo)
deriving DecidableEq, Repr

/-- The fresh state built by the constructor (two empty maps). -/
def emptyState : RenderState :=
  ⟨[], []⟩

/-- A page as supplied by the pdf-parse collaborator to `renderPage`:
either its text content and annotations, or a failure of the
`getTextContent`/`getAnnotations` retrieval (both retrievals happen before
any state is written, so one failure constructor covers both). -/
inductive PageInput where
  | ok (items : List TextItem) (annotations : List PDFAnnotation)
  | fail (msg : String)
deriving DecidableEq, Repr

/-- The body of `renderPage` before its `catch`: process the page content
and record the text and links in the instance maps under the page number. -/
def renderPageBody (p : PageInput) (pageNumber : Nat) (s : RenderState) :
    Except String (String × RenderState) :=
  match p with
  | .fail msg => .error msg
  | .ok items annotations =>
    let pc := processPageContent items annotations pageNumber
    .ok (pc.1,
      ⟨mapSetKV s.pageTexts pageNumber pc.1, mapSetKV s.hyperlinks pageNumber pc.2⟩)

/-- `renderPage` with its `catch`: a failing page logs and returns the empty
string, leaving the instance maps untouched. -/
def renderPage (p : PageInput) (pageNumber : Nat) (s : RenderState) :
    String × RenderState :=
  match renderPageBody p pageNumber s with
  | .ok r => r
  | .error _ => ("", s)

/-- The page-render callback sequence of one `convert` call: pdf-parse
invokes `renderPage` for pages `1, 2, …` in order.  (The strings returned
by `renderPage` are concatenated by pdf-parse into `data.text`, which
`processContent` does not read.) -/
def runPages : List PageInput → Nat → RenderState → RenderState
  | [], _, s => s
  | p :: ps, n, s => runPages ps (n + 1) (renderPage p n s).2

/-- `processContent`: page texts in map-insertion order, each processed by
`processPage` and spliced with the links stored under key `index + 1`, then
joined with a blank line and finished by `formatMarkdown`. -/
def processContent (s : RenderState) : String :=
  let pages := s.pageTexts.map (fun e => e.2)
  let processedPages := pages.enum.map
    (fun e => insertHyperlinks (processPage e.2) ((lookupKV s.hyperlinks (e.1 + 1)).getD []))
  formatMarkdown (String.intercalate "\n\n" processedPages)

/-- One whole conversion on a given instance state: render every page (in
page order, updating the instance maps), then assemble the document from the
state.  Returns the markdown together with the instance state left behind
for the next call on the same instance. -/
def convertDoc (doc : List PageInput) (s : RenderState) : String × RenderState :=
  let s1 := runPages doc 1 s
  (processContent s1, s1)

end PdfToMd.TS

namespace PdfToMd.JS

/-! ## Embedding of `src/index.js` (first module): the variant with the
guarded `insertHyperlinks` regex and the newline-reflow chain in
`processPage`. -/

/-- A link of src/index.js: text and url only. -/
structure JsLink where
  text : String
  url : String
deriving DecidableEq, Repr

/-- The negative lookbehind `(?<!\[|\]\()`: a match position is blocked when
the text before it ends with `'['` or with `"]("`.  The characters already
consumed are passed most-recent-first. -/
def lookbehindOk : List Char → Bool
  | '[' :: _ => false
  | '(' :: ']' :: _ => false
  | _ => true

/-- The negative lookahead `(?!\]|\))`: a match is blocked when the next
character after it is `']'` or `')'`. -/
def lookaheadOk : List Char → Bool
  | ']' :: _ => false
  | ')' :: _ => false
  | _ => true

/-- Whether the guarded pattern matches at the current position: the
escaped link text is a literal prefix of the remaining input and neither
lookaround blocks.  (`escapeRegExp` makes the pattern a literal, which is
why the pattern is matched as a plain character list.) -/
def guardedHere (pat consumed l : List Char) : Bool :=
  !pat.isEmpty && pat.isPrefixOf l && lookbehindOk consumed &&
    lookaheadOk (l.drop pat.length)

/-- The global replacement
`result.replace(new RegExp('(?<!\\[|\\]\\()' + escaped + '(?!\\]|\\))', 'g'), markdownLink)`:
left-to-right, non-overlapping; lookarounds inspect the input string.  The
fuel argument (instantiated with the input length, an upper bound on the
number of scanning steps) makes the recursion structural; `link.text` is
non-empty whenever this runs, so every step consumes at least one input
character. -/
def replGAux (pat repl : List Char) : Nat → List Char → List Char → List Char
  | 0, _, l => l
  | _ + 1, _, [] => []
  | fuel + 1, consumed, c :: cs =>
    if guardedHere pat consumed (c :: cs) then
      repl ++ replGAux pat repl fuel (pat.reverse ++ consumed) ((c :: cs).drop pat.length)
    else c :: replGAux pat repl fuel (c :: consumed) cs

/-- Guarded global literal replacement on a whole string. -/
def replaceGuarded (pat repl l : List Char) : List Char :=
  replGAux pat repl l.length [] l

/-- Whether the guarded pattern matches anywhere in the input (scanning with
the same consumed-context as `replGAux`).  `false` means every literal
occurrence of the pattern is blocked by a lookaround — i.e. already sits
inside a Markdown link. -/
def hasGuardedMatch (pat : List Char) : List Char → List Char → Bool
  | _, [] => false
  | consumed, c :: cs =>
    guardedHere pat consumed (c :: cs) || hasGuardedMatch pat (c :: consumed) cs

/-- The markdown form `[text](url)` built for a link. -/
def mdLink (l : JsLink) : List Char :=
  '[' :: l.text.data ++ ']' :: '(' :: l.url.data ++ [')']

/-- `links.sort((a, b) => b.text.length - a.text.length)`: stable descending
sort by text length (`Array.prototype.sort` is stable, as is
`insertionSort`). -/
def sortLinksByLen (links : List JsLink) : List JsLink :=
  List.insertionSort (fun a b : JsLink => b.text.length ≤ a.text.length) links

/-- `insertHyperlinks` of src/index.js: sort the links by descending text
length, then for each link with truthy text and url replace each guarded
occurrence of the text by the markdown link. -/
def insertHyperlinks (text : String) (links : List JsLink) : String :=
  if links.isEmpty then text
  else
    ⟨(sortLinksByLen links).foldl
      (fun acc l =>
        if l.text ≠ "" ∧ l.url ≠ "" then replaceGuarded l.text.data (mdLink l) acc
        else acc)
      text.data⟩

/-- `replace(/\r\n/g, '\n')`. -/
def stripCr : List Char → List Char
  | [] => []
  | '\r' :: '\n' :: rest => '\n' :: stripCr rest
  | c :: rest => c :: stripCr rest

/-- `replace(/([^\n])\n([^\n])/g, '$1 $2')`: a lone newline between two
non-newline characters becomes a space; the scan is left to right and
non-overlapping, so after a replacement it continues after the second
captured character (which therefore cannot begin another match — the
"a\nb\nc" half-join artifact).  Fuel (instantiated with the input length)
makes the recursion structural. -/
def joinLoneAux : Nat → List Char → List Char
  | 0, l => l
  | _ + 1, [] => []
  | fuel + 1, a :: rest =>
    match rest with
    | '\n' :: b :: rest' =>
      if !(a == '\n') && !(b == '\n') then a :: ' ' :: b :: joinLoneAux fuel rest'
      else a :: joinLoneAux fuel rest
    | _ => a :: joinLoneAux fuel rest

/-- `replace(/([^\n])\n([^\n])/g, '$1 $2')` on a whole string. -/
def joinLone (l : List Char) : List Char :=
  joinLoneAux l.length l

/-- The reflow chain of `processPage` (src/index.js lines 181–185):
`.replace(/\r\n/g, '\n').replace(/([^\n])\n([^\n])/g, '$1 $2').replace(/\n{3,}/g, '\n\n').trim()`. -/
def reflow (pageText : String) : String :=
  ⟨trimL (collapseNl (joinLone (stripCr pageText.data)))⟩

/-- Backtracking for `\s+(.+)` after a recognized list marker: the greedy
whitespace run gives characters back one at a time until `(.+)` (one or more
non-newline characters) can match; the group is the maximal non-newline run
from that point.  The argument counts how many whitespace characters the
`\s+` part still claims; matching fails when it would drop below one. -/
def wsDotAux (rest : List Char) : Nat → Option (List Char)
  | 0 => none
  | k + 1 =>
    match rest.drop (k + 1) with
    | c :: _ =>
      if c == '\n' then wsDotAux rest k
      else some ((rest.drop (k + 1)).takeWhile (fun d => !(d == '\n')))
    | [] => wsDotAux rest k

/-- `\s+(.+)` matched against `rest`: requires a leading whitespace run, then
returns the `(.+)` group. -/
def wsThenRest (rest : List Char) : Option (List Char) :=
  wsDotAux rest (rest.takeWhile isJsSpace).length

/-- `trimmedLine.match(/^[-•*]\s+(.+)/)`: the `(.+)` group, when the line is
a bullet item. -/
def bulletMatch (t : List Char) : Option (List Char) :=
  match t with
  | c :: rest =>
    if c == '-' || c == '•' || c == '*' then wsThenRest rest else none
  | [] => none

/-- `trimmedLine.match(/^(\d+[.)])\s+(.+)/)`: the two groups (numbering
token, content), when the line is a numbered item. -/
def numberMatch (t : List Char) : Option (List Char × List Char) :=
  let ds := t.takeWhile isDigitChar
  if ds.isEmpty then none
  else
    match t.drop ds.length with
    | sep :: rest =>
      if sep == '.' || sep == ')' then
        (wsThenRest rest).map (fun g2 => (ds ++ [sep], g2))
      else none
    | [] => none

/-- One line of the `detectAndFormatLists` loop of src/index.js: bullets are
rewritten to `- <content>`, numbered items are re-emitted as
`<token> <content>` (the original numbering token preserved), an indented
line inside a list passes through keeping list state, anything else passes
through and leaves list state. -/
def listsStepJS (acc : List (List Char) × Bool) (line : List Char) :
    List (List Char) × Bool :=
  let t := trimL line
  match bulletMatch t with
  | some g => (acc.1 ++ ['-' :: ' ' :: g], true)
  | none =>
    match numberMatch t with
    | some m => (acc.1 ++ [m.1 ++ ' ' :: m.2], true)
    | none =>
      if acc.2 && (match line.head? with | some c => isJsSpace c | none => false) then
        (acc.1 ++ [line], true)
      else (acc.1 ++ [line], false)

/-- `detectAndFormatLists` of src/index.js. -/
def detectAndFormatLists (text : String) : String :=
  ⟨joinLines ((splitLines text.data).foldl listsStepJS ([], false)).1⟩

end PdfToMd.JS

namespace PdfToMd

/-! ## Helper lemmas -/

theorem lookupKV_mapSetKV_self {κ ν : Type} [DecidableEq κ]
    (m : List (κ × ν)) (k : κ) (v : ν) :
    lookupKV (mapSetKV m k v) k = some v := by
  induction m with
  | nil => simp [mapSetKV, lookupKV]
  | cons e rest ih =>
    by_cases h : e.1 = k
    · simp [mapSetKV, lookupKV, h]
    · simp [mapSetKV, lookupKV, h, ih]

theorem lookupKV_mapSetKV_ne {κ ν : Type} [DecidableEq κ]
    {m : List (κ × ν)} {k k' : κ} {v : ν} (h : k' ≠ k) :
    lookupKV (mapSetKV m k v) k' = lookupKV m k' := by
  induction m with
  | nil => simp [mapSetKV, lookupKV, Ne.symm h]
  | cons e rest ih =>
    obtain ⟨k1, v1⟩ := e
    by_cases he : k1 = k
    · simp [mapSetKV, lookupKV, he, Ne.symm h, h]
    · by_cases he' : k1 = k'
      · simp [mapSetKV, lookupKV, he, he', h]
      · simp [mapSetKV, lookupKV, he, he', ih]

theorem mapSetKV_eq_self {κ ν : Type} [DecidableEq κ]
    {m : List (κ × ν)} {k : κ} {v : ν} (h : lookupKV m k = some v) :
    mapSetKV m k v = m := by
  induction m with
  | nil => simp [lookupKV] at h
  | cons e rest ih =>
    obtain ⟨k1, v1⟩ := e
    by_cases he : k1 = k
    · have hv : v1 = v := by
        simpa [lookupKV, he] using h
      simp [mapSetKV, he, hv]
    · have h' : lookupKV rest k = some v := by
        simpa [lookupKV, he] using h
      simp [mapSetKV, he, ih h']

end PdfToMd

namespace PdfToMd.TS

theorem runPages_lookup_lt :
    ∀ (doc : List PageInput) (n : Nat) (s : RenderState) (k : Nat), k < n →
      lookupKV (runPages doc n s).pageTexts k = lookupKV s.pageTexts k ∧
      lookupKV (runPages doc n s).hyperlinks k = lookupKV s.hyperlinks k := by
  intro doc
  induction doc with
  | nil => intro n s k _; exact ⟨rfl, rfl⟩
  | cons p ps ih =>
    intro n s k hk
    have hk' : k < n + 1 := Nat.lt_succ_of_lt hk
    have hkn : k ≠ n := Nat.ne_of_lt hk
    cases p with
    | fail msg =>
      simpa [runPages, renderPage, renderPageBody] using ih (n + 1) s k hk'
    | ok items annotations =>
      have h := ih (n + 1)
        ⟨mapSetKV s.pageTexts n (processPageContent items annotations n).1,
          mapSetKV s.hyperlinks n (processPageContent items annotations n).2⟩ k hk'
      simp only [runPages, renderPage, renderPageBody]
      exact ⟨h.1.trans (lookupKV_mapSetKV_ne hkn),
        h.2.trans (lookupKV_mapSetKV_ne hkn)⟩

theorem runPages_idem :
    ∀ (doc : List PageInput) (n : Nat) (s : RenderState),
      runPages doc n (runPages doc n s) = runPages doc n s := by
  intro doc
  induction doc with
  | nil => intro n s; rfl
  | cons p ps ih =>
    intro n s
    cases p with
    | fail msg =>
      simpa [runPages, renderPage, renderPageBody] using ih (n + 1) (renderPage (.fail msg) n s).2
    | ok items annotations =>
      set v := (processPageContent items annotations n).1 with hv
      set w := (processPageContent items annotations n).2 with hw
      set s1 : RenderState :=
        ⟨mapSetKV s.pageTexts n v, mapSetKV s.hyperlinks n w⟩ with hs1
      have hstep : (renderPage (.ok items annotations) n s).2 = s1 := by
        simp [renderPage, renderPageBody, hs1, hv, hw]
      have hlook := runPages_lookup_lt ps (n + 1) s1 n (Nat.lt_succ_self n)
      have hpt : lookupKV (runPages ps (n + 1) s1).pageTexts n = some v := by
        rw [hlook.1, hs1]
        exact lookupKV_mapSetKV_self s.pageTexts n v
      have hhl : lookupKV (runPages ps (n + 1) s1).hyperlinks n = some w := by
        rw [hlook.2, hs1]
        exact lookupKV_mapSetKV_self s.hyperlinks n w
      have hfix : (renderPage (.ok items annotations) n (runPages ps (n + 1) s1)).2 =
          runPages ps (n + 1) s1 := by
        simp only [renderPage, renderPageBody, ← hv, ← hw]
        rw [mapSetKV_eq_self hpt, mapSetKV_eq_self hhl]
      calc runPages (.ok items annotations :: ps) n (runPages (.ok items annotations :: ps) n s)
          = runPages ps (n + 1)
              ((renderPage (.ok items annotations) n (runPages ps (n + 1) s1)).2) := by
            simp [runPages, hstep]
        _ = runPages ps (n + 1) (runPages ps (n + 1) s1) := by rw [hfix]
        _ = runPages ps (n + 1) s1 := ih (n + 1) s1
        _ = runPages (.ok items annotations :: ps) n s := by
            simp [runPages, hstep]

end PdfToMd.TS

namespace PdfToMd

theorem splitLines_eq_single {l : List Char} (h : '\n' ∉ l) :
    splitLines l = [l] := by
  induction l with
  | nil => rfl
  | cons c rest ih =>
    have hc : (c == '\n') = false := by
      simp only [List.mem_cons, not_or] at h
      exact beq_eq_false_iff_ne.mpr (fun hc => h.1 hc.symm)
    have hrest : '\n' ∉ rest := by
      simp only [List.mem_cons, not_or] at h
      exact h.2
    simp [splitLines, hc, ih hrest]

theorem dropWhile_eq_self_of_head {p : Char → Bool} {l : List Char}
    (h : ∀ c, l.head? = some c → p c = false) :
    l.dropWhile p = l := by
  cases l with
  | nil => rfl
  | cons c rest => simp [List.dropWhile_cons, h c rfl]

theorem trimL_eq_self {l : List Char}
    (h1 : ∀ c, l.head? = some c → isJsSpace c = false)
    (h2 : ∀ c, l.getLast? = some c → isJsSpace c = false) :
    trimL l = l := by
  unfold trimL
  rw [dropWhile_eq_self_of_head h1]
  rw [dropWhile_eq_self_of_head (by simpa [List.head?_reverse] using h2)]
  exact List.reverse_reverse l

theorem takeWhile_eq_self_of_all {p : Char → Bool} :
    ∀ {l : List Char}, (∀ c ∈ l, p c = true) → l.takeWhile p = l := by
  intro l
  induction l with
  | nil => intro _; rfl
  | cons c rest ih =>
    intro h
    simp [List.takeWhile_cons, h c (List.mem_cons_self c rest),
      ih (fun d hd => h d (List.mem_cons_of_mem c hd))]

theorem takeWhile_append_stop {p : Char → Bool} {x : Char} :
    ∀ (l1 l2 : List Char), (∀ c ∈ l1, p c = true) → p x = false →
      (l1 ++ x :: l2).takeWhile p = l1 := by
  intro l1 l2 h hx
  induction l1 with
  | nil => simp [List.takeWhile_cons, hx]
  | cons c rest ih =>
    simp only [List.cons_append, List.takeWhile_cons,
      h c (List.mem_cons_self c rest), if_true]
    rw [ih (fun d hd => h d (List.mem_cons_of_mem c hd))]

/-- A digit is not a whitespace character. -/
theorem isDigit_not_space {c : Char} (h : isDigitChar c = true) :
    isJsSpace c = false := by
  simp only [isDigitChar, Bool.and_eq_true, decide_eq_true_eq] at h
  simp only [isJsSpace, Bool.or_eq_false_iff, beq_eq_false_iff_ne, ne_eq]
  refine ⟨⟨⟨⟨⟨?_, ?_⟩, ?_⟩, ?_⟩, ?_⟩, ?_⟩ <;>
    · rintro rfl
      revert h
      decide

/-- A non-whitespace character is not the newline. -/
theorem not_space_ne_nl {c : Char} (h : isJsSpace c = false) :
    (c == '\n') = false := by
  by_contra hc
  have : c = '\n' := by
    simpa [beq_iff_eq] using hc
  subst this
  simp [isJsSpace] at h

end PdfToMd

namespace PdfToMd.JS

theorem replGAux_eq_self (pat repl : List Char) :
    ∀ (l : List Char) (fuel : Nat) (consumed : List Char),
      hasGuardedMatch pat consumed l = false →
      replGAux pat repl fuel consumed l = l := by
  intro l
  induction l with
  | nil =>
    intro fuel consumed _
    cases fuel <;> rfl
  | cons c cs ih =>
    intro fuel consumed h
    have h' : guardedHere pat consumed (c :: cs) = false ∧
        hasGuardedMatch pat (c :: consumed) cs = false := by
      simpa [hasGuardedMatch, Bool.or_eq_false_iff] using h
    cases fuel with
    | zero => rfl
    | succ fuel =>
      simp [replGAux, h'.1, ih fuel (c :: consumed) h'.2]

end PdfToMd.JS

namespace PdfToMd.TS

/-- A trimmed line that starts with `'#'` and differs from its own
upper-casing fails every arm of `isSectionHeader`. -/
theorem isSectionHeader_eq_false {t : List Char}
    (hhash : t.head? = some '#') (hup : t.map Char.toUpper ≠ t) :
    isSectionHeader t = false := by
  obtain ⟨rest, rfl⟩ : ∃ rest, t = '#' :: rest := by
    cases t with
    | nil => simp at hhash
    | cons c rest =>
      have hc : c = '#' := by simpa using hhash
      exact ⟨rest, by rw [hc]⟩
  have h1 : (('#' :: rest).map Char.toUpper == '#' :: rest) = false :=
    beq_eq_false_iff_ne.mpr hup
  have h2 : (('#' :: rest).all
      (fun c => isWordChar c || isJsSpace c || c == ',' || c == '-')) = false := by
    simp [List.all_cons, isWordChar, isJsSpace]
  unfold isSectionHeader
  split
  · rfl
  · split
    · rfl
    · rw [h1, h2]
      simp

/-- A single-line text whose (trimmed) line is not a section header passes
through `detectAndFormatSections` unchanged. -/
theorem detectAndFormatSections_single_passthrough {l : List Char}
    (hnl : '\n' ∉ l) (hfalse : isSectionHeader (trimL l) = false) :
    detectAndFormatSections ⟨l⟩ = ⟨l⟩ := by
  unfold detectAndFormatSections
  show String.mk (joinLines ((splitLines l).foldl sectionsStep ([], false, 0)).1) = ⟨l⟩
  rw [splitLines_eq_single hnl]
  simp [sectionsStep, hfalse, joinLines]

end PdfToMd.TS

namespace PdfToMd

/-- A digit is not a bullet-marker character. -/
theorem isDigit_not_bullet {c : Char} (h : isDigitChar c = true) :
    (c == '-' || c == '•' || c == '*') = false := by
  simp only [isDigitChar, Bool.and_eq_true, decide_eq_true_eq] at h
  simp only [Bool.or_eq_false_iff, beq_eq_false_iff_ne, ne_eq]
  refine ⟨⟨?_, ?_⟩, ?_⟩ <;>
    · rintro rfl
      revert h
      decide

end PdfToMd

namespace PdfToMd.JS

/-- `\s+(.+)` on a string made of exactly one space followed by text that
neither starts with whitespace nor contains a newline matches with the
whole text as the `(.+)` group. -/
theorem wsThenRest_space_cons {r0 : Char} {rest' : List Char}
    (hr0 : isJsSpace r0 = false) (hnl : '\n' ∉ r0 :: rest') :
    wsThenRest (' ' :: r0 :: rest') = some (r0 :: rest') := by
  have hsp : isJsSpace ' ' = true := by decide
  have hrun : (' ' :: r0 :: rest').takeWhile isJsSpace = [' '] := by
    simp [List.takeWhile_cons, hsp, hr0]
  have hr0nl : (r0 == '\n') = false := not_space_ne_nl hr0
  have hall : (r0 :: rest').takeWhile (fun d => !(d == '\n')) = r0 :: rest' := by
    refine takeWhile_eq_self_of_all ?_
    intro d hd
    have hdn : d ≠ '\n' := fun hdd => hnl (hdd ▸ hd)
    simp [beq_eq_false_iff_ne.mpr hdn]
  unfold wsThenRest
  rw [hrun]
  show wsDotAux (' ' :: r0 :: rest') 1 = some (r0 :: rest')
  unfold wsDotAux
  simp [hr0nl, hall]

end PdfToMd.JS

namespace PdfToMd

/-- C7 (amended core): src/index.js's `detectAndFormatLists` re-emits a
clean numbered line `<digits><. or )> <content>` unchanged — the original
numbering token is preserved.  (`src/index.ts`'s variant instead mangles
such lines; see the counterexample theorem.) -/
theorem c7_numbered_token_preserved (ds : List Char) (sep : Char) (rest : List Char)
    (hds : ds ≠ []) (hdig : ∀ c ∈ ds, isDigitChar c = true)
    (hsep : sep = '.' ∨ sep = ')')
    (hhead : rest.head?.elim False (fun c => isJsSpace c = false))
    (hlast : rest.getLast?.elim False (fun c => isJsSpace c = false))
    (hnl : '\n' ∉ rest) :
    JS.detectAndFormatLists ⟨ds ++ sep :: ' ' :: rest⟩ = ⟨ds ++ sep :: ' ' :: rest⟩ := by
  obtain ⟨d0, ds', rfl⟩ : ∃ d0 ds', ds = d0 :: ds' := by
    cases ds with
    | nil => exact absurd rfl hds
    | cons a b => exact ⟨a, b, rfl⟩
  obtain ⟨r0, rest', rfl⟩ : ∃ r0 rest', rest = r0 :: rest' := by
    cases rest with
    | nil => exact hhead.elim
    | cons a b => exact ⟨a, b, rfl⟩
  have hr0 : isJsSpace r0 = false := hhead
  obtain ⟨e, he⟩ : ∃ e, (r0 :: rest').getLast? = some e :=
    Option.isSome_iff_exists.mp (by simp [List.getLast?_isSome])
  have hlaste : isJsSpace e = false := by
    rw [he] at hlast
    exact hlast
  have hsepdig : isDigitChar sep = false := by
    rcases hsep with rfl | rfl <;> decide
  have hsepnl : sep ≠ '\n' := by
    rcases hsep with rfl | rfl <;> decide
  set l : List Char := (d0 :: ds') ++ sep :: ' ' :: r0 :: rest' with hl
  have hnl_l : '\n' ∉ l := by
    intro hm
    rcases List.mem_append.mp hm with hin | hin
    · exact absurd (hdig '\n' hin) (by decide)
    · rcases List.mem_cons.mp hin with hc | hin
      · exact hsepnl hc.symm
      · rcases List.mem_cons.mp hin with hc | hin
        · exact absurd hc (by decide)
        · exact hnl hin
  have htrim : trimL l = l := by
    refine trimL_eq_self ?_ ?_
    · intro c hc
      have : d0 = c := by simpa [hl] using hc
      exact this ▸ isDigit_not_space (hdig d0 (by simp))
    · intro c hc
      have hre : l = ((d0 :: ds') ++ [sep, ' ']) ++ (r0 :: rest') := by
        simp [hl]
      rw [hre, List.getLast?_append, he] at hc
      have : e = c := by simpa using hc
      exact this ▸ hlaste
  have hbul : JS.bulletMatch l = none := by
    have hd := isDigit_not_bullet (hdig d0 (by simp))
    show (if (d0 == '-' || d0 == '•' || d0 == '*') = true then
        JS.wsThenRest (ds' ++ sep :: ' ' :: r0 :: rest') else none) = none
    simp [hd]
  have htake : l.takeWhile isDigitChar = d0 :: ds' :=
    takeWhile_append_stop (d0 :: ds') (' ' :: r0 :: rest') hdig hsepdig
  have hdrop : l.drop (d0 :: ds').length = sep :: ' ' :: r0 :: rest' :=
    List.drop_left (d0 :: ds') (sep :: ' ' :: r0 :: rest')
  have hsept : (sep == '.' || sep == ')') = true := by
    rcases hsep with rfl | rfl <;> decide
  have hws : JS.wsThenRest (' ' :: r0 :: rest') = some (r0 :: rest') :=
    JS.wsThenRest_space_cons hr0 hnl
  have hnum : JS.numberMatch l = some ((d0 :: ds') ++ [sep], r0 :: rest') := by
    unfold JS.numberMatch
    rw [htake]
    have hdrop' : List.drop (ds'.length + 1) l = sep :: ' ' :: r0 :: rest' := by
      simpa using hdrop
    simp [hdrop', hsep, hws]
  show String.mk (joinLines ((splitLines l).foldl JS.listsStepJS ([], false)).1) = ⟨l⟩
  rw [splitLines_eq_single hnl_l]
  simp only [List.foldl_cons, List.foldl_nil, JS.listsStepJS, htrim, hbul, hnum]
  simp [joinLines, hl]

end PdfToMd

namespace PdfToMd

/-! ## Claim theorems -/

set_option maxRecDepth 4000

attribute [local semireducible] Rat.ofScientific Rat.mul Rat.inv Rat.add Rat.sub

/-- C1: the hyperlink-splicing step of src/index.ts / src/dist/index.js is
required to replace the matching occurrence of a link's text by
`[text](url)` exactly once and never silently drop the link.  The shipped
`insertHyperlinks` has its whole body commented out and returns its input
unchanged, so for the spec's own example (page text `"Click Home for info"`,
link `Home → http://a.com`) the output is the unchanged input and contains
no `[Home](http://a.com)` — every link is silently dropped, contradicting
the function's doc comment and the README. -/
theorem c1_insertHyperlinks_drops_links :
    TS.insertHyperlinks "Click Home for info" [⟨"Home", "http://a.com", ⟨48, 10, 1⟩⟩] =
      "Click Home for info" ∧
    listIncludes (TS.insertHyperlinks "Click Home for info"
        [⟨"Home", "http://a.com", ⟨48, 10, 1⟩⟩]).data "[Home](http://a.com)".data = false :=
  ⟨rfl, by decide⟩

/-- C2: when every literal occurrence of a candidate link's text in the page
text is blocked by the lookarounds of src/index.js's `insertHyperlinks`
(i.e. the text only occurs already wrapped inside a Markdown link), the
splicing step returns the page text unchanged — already-wrapped occurrences
are skipped, never double-wrapped or corrupted. -/
theorem c2_already_wrapped_left_unchanged (text : String) (link : JS.JsLink)
    (htext : link.text ≠ "") (hurl : link.url ≠ "")
    (hwrapped : JS.hasGuardedMatch link.text.data [] text.data = false) :
    JS.insertHyperlinks text [link] = text := by
  have hrepl : JS.replaceGuarded link.text.data (JS.mdLink link) text.data = text.data :=
    JS.replGAux_eq_self _ _ text.data text.data.length [] hwrapped
  simp only [JS.insertHyperlinks, List.isEmpty_cons, Bool.false_eq_true, if_false]
  have hsort : JS.sortLinksByLen [link] = [link] := rfl
  rw [hsort]
  simp only [List.foldl_cons, List.foldl_nil]
  rw [if_pos ⟨htext, hurl⟩, hrepl]

/-- Witness for C2 at the spec's example: splicing
`{text: "Home", url: "http://x.com"}` into
`"Visit [Home](http://x.com) today"` leaves the string unchanged. -/
theorem c2_witness :
    JS.insertHyperlinks "Visit [Home](http://x.com) today" [⟨"Home", "http://x.com"⟩] =
      "Visit [Home](http://x.com) today" :=
  c2_already_wrapped_left_unchanged "Visit [Home](http://x.com) today"
    ⟨"Home", "http://x.com"⟩ (by decide) (by decide) (by decide)

/-- C3 counterexample: the output of a `convert` call does depend on the
instance-level `pageTexts`/`hyperlinks` maps accumulated by an earlier
`convert` call on the same instance.  Converting a one-page document on a
fresh instance yields `"Bee."`; converting the same document on an instance
that previously converted a two-page document yields `"Bee.\n\nTwo."` — the
stale page 2 leaks into the output. -/
theorem c3_output_depends_on_stale_state :
    (TS.convertDoc [TS.PageInput.ok [⟨"Bee.", 0, 10, none⟩] []]
        (TS.convertDoc [TS.PageInput.ok [⟨"One.", 0, 10, none⟩] [],
            TS.PageInput.ok [⟨"Two.", 0, 10, none⟩] []] TS.emptyState).2).1 ≠
    (TS.convertDoc [TS.PageInput.ok [⟨"Bee.", 0, 10, none⟩] []] TS.emptyState).1 := by
  decide

/-- C3 (amended): running the conversion twice on identical input — from any
starting instance state — produces byte-identical output (and an identical
final instance state): re-rendering the same pages overwrites the same map
keys with the same values, so the second run is a no-op on the state. -/
theorem c3_convert_idempotent (doc : List TS.PageInput) (s : TS.RenderState) :
    (TS.convertDoc doc (TS.convertDoc doc s).2).1 = (TS.convertDoc doc s).1 ∧
    (TS.convertDoc doc (TS.convertDoc doc s).2).2 = (TS.convertDoc doc s).2 := by
  have h := TS.runPages_idem doc 1 s
  exact ⟨congrArg TS.processContent h, h⟩

/-- C4 counterexample: `groupTextItemsByLine` has no tolerance band — it
groups by exact equality of the y coordinate rounded to two decimals, so
runs at `y = 100.00` and `y = 100.02` land in two different lines, while the
claim requires them to share one line under a 0.05 tolerance. -/
theorem c4_centesimal_not_tolerance :
    (TS.groupTextItemsByLine [⟨"a", 0, 100, none⟩, ⟨"b", 0, 100.02, none⟩]).length = 2 := by
  decide

/-- C4 (amended): `groupTextItemsByLine` groups runs whose y coordinates
round to the same centesimal value (`Math.round(y*100)/100`) into one Line
(`y = 100.004` joins `y = 100.00`), separates distinct rounded values
(`100.02` versus `100.00`, and `110` versus `100`), and orders the Lines by
strictly descending rounded y, the larger original-PDF y first. -/
theorem c4_grouping_by_rounded_y :
    TS.groupTextItemsByLine [⟨"a", 0, 100, none⟩, ⟨"b", 0, 100.02, none⟩] =
      [[⟨"b", 0, 100.02, 8⟩], [⟨"a", 0, 100, 8⟩]] ∧
    TS.groupTextItemsByLine [⟨"a", 0, 100, none⟩, ⟨"c", 8, 100.004, none⟩] =
      [[⟨"a", 0, 100, 8⟩, ⟨"c", 8, 100, 8⟩]] ∧
    TS.groupTextItemsByLine [⟨"a", 0, 100, none⟩, ⟨"d", 0, 110, none⟩] =
      [[⟨"d", 0, 110, 8⟩], [⟨"a", 0, 100, 8⟩]] ∧
    ∀ items : List TS.TextItem, List.Sorted TS.keyGE (TS.sortedLineGroups items) :=
  ⟨by decide, by decide, by decide,
    fun items => List.sorted_insertionSort TS.keyGE (TS.lineGroups items)⟩

/-- C5 counterexample: merging the two runs `"Go"` (x = 0) and `"ogle"`
(x = 16) for the same url on the same line through `addToLinks` does not
produce the seamless text `"Google"`: `combineText` concatenates with a
space. -/
theorem c5_not_seamless_google :
    (TS.addToLinks (TS.addToLinks [] ⟨"Go", "http://g.com", ⟨0, 50, 1⟩⟩)
        ⟨"ogle", "http://g.com", ⟨16, 50, 1⟩⟩).map TS.LinkInfo.text ≠ ["Google"] := by
  decide

/-- C5 (amended): the two adjacent runs do merge into exactly one
CandidateLink (not two), but its text is the space-joined `"Go ogle"` —
`combineText` never joins fragments seamlessly. -/
theorem c5_single_space_joined_link :
    TS.addToLinks (TS.addToLinks [] ⟨"Go", "http://g.com", ⟨0, 50, 1⟩⟩)
        ⟨"ogle", "http://g.com", ⟨16, 50, 1⟩⟩ =
      [⟨"Go ogle", "http://g.com", ⟨0, 50, 1⟩⟩] := by
  decide

/-- C6 counterexample: in src/index.ts the reflow step `normalizeSpacing`
collapses every whitespace run of length at least two — including a genuine
blank-line paragraph break — to a single space, so the break does not
survive into the output. -/
theorem c6_blank_break_collapsed :
    TS.normalizeSpacing "a\n\nb" = "a b" ∧ ("a b" : String) ≠ "a\n\nb" :=
  ⟨rfl, by decide⟩

/-- C6 (amended): the reflow chain of src/index.js's `processPage` joins a
lone newline between two non-blank characters into a space (one left-to-right
pass, so in `"a\nb\nc"` only the first lone newline is joined), preserves an
exactly-blank-line break, and collapses runs of three or more newlines to
exactly two; in src/index.ts, `formatMarkdown` collapses newline runs of
three or more to exactly two, while `normalizeSpacing` leaves a lone newline
alone (it never joins it into a space). -/
theorem c6_reflow_behaviour :
    JS.reflow "a\nb" = "a b" ∧
    JS.reflow "a\n\nb" = "a\n\nb" ∧
    JS.reflow "a\n\n\n\n\nb" = "a\n\nb" ∧
    JS.reflow "a\nb\nc" = "a b\nc" ∧
    TS.formatMarkdown "p\n\n\n\nq" = "p\n\nq" ∧
    TS.normalizeSpacing "x\ny" = "x\ny" :=
  ⟨rfl, rfl, rfl, rfl, rfl, rfl⟩

/-- C7 counterexample: src/index.ts's `detectAndFormatLists` does not
preserve the numbering token of `"2. Item"`: its replacement
`trimmed.replace(/^[•-\d.]\s*/, '- ')` consumes only the single character
`'2'` and produces `"- . Item"`. -/
theorem c7_ts_mangles_numbered_line :
    TS.detectAndFormatLists "2. Item" = "- . Item" ∧ ("- . Item" : String) ≠ "2. Item" :=
  ⟨rfl, by decide⟩

/-- Witness for C7 (amended): src/index.js's `detectAndFormatLists` re-emits
`"2. Item"` unchanged, numbering token preserved. -/
theorem c7_witness :
    JS.detectAndFormatLists "2. Item" = "2. Item" :=
  c7_numbered_token_preserved ['2'] '.' "Item".data (by decide) (by decide)
    (Or.inl rfl)
    (by show isJsSpace 'I' = false; decide)
    (by show isJsSpace 'm' = false; decide)
    (by decide)

/-- C8: a page whose text-content or annotation retrieval throws is caught
by `renderPage` — it contributes the empty string, the instance state is
left untouched, and no exception escapes: the conversion of a 3-page
document whose page 2 fails still contains the content of pages 1 and 3. -/
theorem c8_page_failure_isolated :
    (∀ (msg : String) (n : Nat) (s : TS.RenderState),
      TS.renderPage (TS.PageInput.fail msg) n s = ("", s)) ∧
    (TS.convertDoc [TS.PageInput.ok [⟨"First page.", 0, 10, none⟩] [],
        TS.PageInput.fail "boom",
        TS.PageInput.ok [⟨"Third page.", 0, 10, none⟩] []] TS.emptyState).1 =
      "First page.\n\nThird page." ∧
    listIncludes ("First page.\n\nThird page." : String).data "First page.".data = true ∧
    listIncludes ("First page.\n\nThird page." : String).data "Third page.".data = true :=
  ⟨fun _ _ _ => rfl, by decide, by decide, by decide⟩

/-- C9 counterexample: header formatting is not idempotent.  Formatting
`"HELLO"` once yields `"\n## HELLO\n"`; re-applying `detectAndFormatSections`
classifies both the blank line and the all-uppercase `"## HELLO"` line as
headers again, and the output differs from the once-formatted text and
contains the double prefix `"## ##"`. -/
theorem c9_double_prefix_on_reapply :
    TS.detectAndFormatSections (TS.detectAndFormatSections "HELLO") ≠
      TS.detectAndFormatSections "HELLO" ∧
    listIncludes (TS.detectAndFormatSections (TS.detectAndFormatSections "HELLO")).data
      "## ##".data = true :=
  ⟨by decide, by decide⟩

/-- C9 (amended): re-applying `detectAndFormatSections` to a single line
whose trimmed text starts with `'#'` does not double-prefix it provided the
trimmed text differs from its own upper-casing (it contains a lowercase
letter): such a line fails both header tests (`'#'` is outside `[\w\s,-]`)
and passes through unchanged.  Blank or all-uppercase `## ` lines are
re-classified as headers and do get double-prefixed — see the
counterexample. -/
theorem c9_mixed_case_header_stable (l : List Char)
    (hnl : '\n' ∉ l)
    (hhash : (trimL l).head? = some '#')
    (hup : (trimL l).map Char.toUpper ≠ trimL l) :
    TS.detectAndFormatSections ⟨l⟩ = ⟨l⟩ :=
  TS.detectAndFormatSections_single_passthrough hnl
    (TS.isSectionHeader_eq_false hhash hup)

/-- Witness for C9 (amended): an already-prefixed mixed-case header line is
left unchanged by a second application. -/
theorem c9_witness :
    TS.detectAndFormatSections "## Hello" = "## Hello" :=
  c9_mixed_case_header_stable "## Hello".data (by decide) (by decide) (by decide)

/-- C10: `isSectionHeader` accepts the empty string (it equals its own
upper-casing and contains neither `'@'` nor `"http"`), so a line with blank
trimmed content is rewritten by `detectAndFormatSections` into the empty
header `"\n## \n"` instead of passing through as a blank line — both for a
whole blank single-line text and for a blank line inside a larger text. -/
theorem c10_blank_line_becomes_header :
    TS.isSectionHeader [] = true ∧
    (∀ l : List Char, trimL l = [] → '\n' ∉ l →
      TS.detectAndFormatSections ⟨l⟩ = "\n## \n") ∧
    TS.detectAndFormatSections "a.\n\nb." = "a.\n\n\n## \n\nb." := by
  refine ⟨by decide, ?_, by decide⟩
  intro l htrim hnl
  have hh : TS.isSectionHeader (trimL l) = true := by
    rw [htrim]
    decide
  show String.mk (joinLines ((splitLines l).foldl TS.sectionsStep ([], false, 0)).1) =
    "\n## \n"
  rw [splitLines_eq_single hnl]
  simp [TS.sectionsStep, hh, htrim, joinLines]

/-- Witness for C10: the all-blank line `" "` is rewritten into the empty
header. -/
theorem c10_witness :
    TS.detectAndFormatSections " " = "\n## \n" :=
  c10_blank_line_becomes_header.2.1 [' '] (by decide) (by decide)

end PdfToMd
